import Mathlib

/-!
Verification of the `KFold` partitioner from `preprocessy/resampling/_kfold.py`.

The class is embedded shallowly:

* Python argument values that reach the validation code are modelled by `PyVal`
  (an integer, a boolean, a string, a float tag, or `None`); Python's
  `isinstance(x, numbers.Integral)` accepts `int` and `bool`, and
  `isinstance(x, bool)` accepts only `bool`.
* `KFold.init` is `KFold.__init__`, with each `raise ValueError` translated to
  `Except.error` carrying the leading words of the message.
* `numpy.random` is an external collaborator.  It is modelled by `NpRandom`:
  a global generator state of some type `State`, a `seed` operation that
  derives a fresh state from the configured `random_state` (discarding the
  previous global state, as `np.random.seed` does), and a `permutation`
  operation reading that state.
* `KFold.split` takes the sample count `n` directly (the collaborator
  `num_of_samples` is out of scope per the spec) and returns the full list of
  `(train_indices, test_indices)` pairs that the Python generator yields.
-/

/-- A Python value as seen by the validation code of `KFold.__init__`. -/
inductive PyVal where
  | int (n : Int)
  | bool (b : Bool)
  | str (s : String)
  | float (q : Int)
  | none
deriving DecidableEq, Repr

/-- `isinstance(x, numbers.Integral)`: true for `int` and `bool` only. -/
def PyVal.isIntegral : PyVal → Bool
  | .int _ => true
  | .bool _ => true
  | _ => false

/-- `isinstance(x, bool)`. -/
def PyVal.isBool : PyVal → Bool
  | .bool _ => true
  | _ => false

/-- Numeric value of an integral `PyVal` (`True` is 1, `False` is 0). -/
def PyVal.toInt : PyVal → Int
  | .int n => n
  | .bool b => if b then 1 else 0
  | _ => 0

/-- Boolean value of a `PyVal` that passed the `isinstance(x, bool)` check. -/
def PyVal.asBool : PyVal → Bool
  | .bool b => b
  | _ => false

/-- The fields stored on a `KFold` instance by a successful `__init__`. -/
structure KFold where
  n_splits : Int
  shuffle : Bool
  random_state : PyVal
deriving DecidableEq, Repr

/-- `KFold.__init__(n_splits, shuffle, random_state)`: the five validation
checks in source order, then the field stores. -/
def KFold.init (n_splits shuffle random_state : PyVal) : Except String KFold :=
  if !n_splits.isIntegral then
    .error "Number of folds must be an integer"
  else if n_splits.toInt ≤ 1 then
    .error "K-fold cross-validation requires at least one train/test split"
  else if !shuffle.isBool then
    .error "shuffle must be boolean value"
  else if !random_state.isIntegral then
    .error "Random state must be an integer"
  else if !shuffle.asBool && random_state ≠ PyVal.none then
    .error "Setting a random_state has no effect since shuffle is False"
  else
    .ok { n_splits := n_splits.toInt
          shuffle := shuffle.asBool
          random_state := random_state }

/-- Model of the `numpy.random` module: a global generator state of type
`State`, `np.random.seed` building a state from the configured seed value,
and `np.random.permutation` reading a state. -/
structure NpRandom (State : Type) where
  seed : PyVal → State
  permutation : State → Nat → List Nat

/-- `fold_sizes`: `np.full(n_splits, n_samples // n_splits)` followed by
`fold_sizes[: n_samples % n_splits] += 1`. -/
def foldSizes (n_splits n_samples : Nat) : List Nat :=
  (List.range n_splits).map
    (fun i => n_samples / n_splits + if i < n_samples % n_splits then 1 else 0)

/-- The loop of `__iter_test_indices`: walk `indices` in contiguous chunks
`indices[current : current + fold_size]`, one per fold size. -/
def chunkList (indices : List Nat) : List Nat → Nat → List (List Nat)
  | [], _ => []
  | s :: rest, current => (indices.drop current).take s :: chunkList indices rest (current + s)

/-- The base index order of `__iter_test_indices`: with shuffling, the code
calls `np.random.seed(self.random_state)` (overwriting the incoming global
state `σ`) and then `np.random.permutation(n_samples)`; otherwise
`np.arange(n_samples)`. -/
def KFold.baseOrder {State : Type} (k : KFold) (np : NpRandom State) (σ : State)
    (n_samples : Nat) : List Nat :=
  if k.shuffle then np.permutation (np.seed k.random_state) n_samples
  else List.range n_samples

/-- `KFold.__iter_test_indices(n_samples)`: the list of per-fold masks, each
represented by the set of permuted index values `indices[start:stop]` at which
the boolean mask is `True`. -/
def KFold.iterTestIndices {State : Type} (k : KFold) (np : NpRandom State) (σ : State)
    (n_samples : Nat) : List (List Nat) :=
  chunkList (k.baseOrder np σ n_samples) (foldSizes k.n_splits.toNat n_samples) 0

/-- `train_indices = indices[np.logical_not(mask)]` with
`indices = np.arange(n_samples)`: ascending positions where the mask is false. -/
def trainOf (n_samples : Nat) (mask : List Nat) : List Nat :=
  (List.range n_samples).filter (fun j => !decide (j ∈ mask))

/-- `test_indices = indices[mask]`: ascending positions where the mask is true. -/
def testOf (n_samples : Nat) (mask : List Nat) : List Nat :=
  (List.range n_samples).filter (fun j => decide (j ∈ mask))

/-- `KFold.split`: raises when `self.n_splits > n_samples`; otherwise, for each
mask, yields `(indices[np.logical_not(mask)], indices[mask])` where `indices =
np.arange(n_samples)`. -/
def KFold.split {State : Type} (k : KFold) (np : NpRandom State) (σ : State)
    (n_samples : Nat) : Except String (List (List Nat × List Nat)) :=
  if k.n_splits > (n_samples : Int) then
    .error "Cannot have number of splits greater than number of samples"
  else
    .ok ((k.iterTestIndices np σ n_samples).map (fun mask =>
      (trainOf n_samples mask, testOf n_samples mask)))

/-- `KFold.get_n_splits()`. -/
def KFold.get_n_splits (k : KFold) : Int :=
  k.n_splits

/-- A trivial `numpy.random` model for concrete runs that never shuffle. -/
def npUnit : NpRandom Unit :=
  { seed := fun _ => (), permutation := fun _ _ => [] }

/-- A concrete `numpy.random` model whose global state is a single `Bool`,
used to exercise runs that start from different global generator states. -/
def npBoolState : NpRandom Bool :=
  { seed := fun _ => true, permutation := fun _ n => List.range n }

/-! ### Helper lemmas about the embedded algorithm -/

theorem mem_testOf {n j : Nat} {mask : List Nat} :
    j ∈ testOf n mask ↔ j < n ∧ j ∈ mask := by
  simp [testOf, List.mem_filter, List.mem_range]

theorem mem_trainOf {n j : Nat} {mask : List Nat} :
    j ∈ trainOf n mask ↔ j < n ∧ j ∉ mask := by
  simp [trainOf, List.mem_filter, List.mem_range]

theorem sorted_testOf (n : Nat) (mask : List Nat) :
    (testOf n mask).Sorted (· < ·) :=
  List.Sorted.filter _ (List.pairwise_lt_range n)

theorem sorted_trainOf (n : Nat) (mask : List Nat) :
    (trainOf n mask).Sorted (· < ·) :=
  List.Sorted.filter _ (List.pairwise_lt_range n)

/-- When the mask values are distinct positions below `n`, the test selection
has exactly as many indices as the mask has values. -/
theorem length_testOf {n : Nat} {mask : List Nat} (hnd : mask.Nodup)
    (hlt : ∀ x ∈ mask, x < n) : (testOf n mask).length = mask.length := by
  have hperm : (testOf n mask).Perm mask := by
    apply List.Subperm.antisymm
    · apply List.Nodup.subperm (List.Nodup.filter _ (List.nodup_range n))
      intro x hx
      exact (mem_testOf.mp hx).2
    · apply List.Nodup.subperm hnd
      intro x hx
      exact mem_testOf.mpr ⟨hlt x hx, hx⟩
  exact hperm.length_eq

theorem chunkList_length (indices sizes : List Nat) (c : Nat) :
    (chunkList indices sizes c).length = sizes.length := by
  induction sizes generalizing c with
  | nil => rfl
  | cons s rest ih => simp [chunkList, ih]

theorem chunkList_flatten (indices sizes : List Nat) (c : Nat) :
    (chunkList indices sizes c).flatten = (indices.drop c).take sizes.sum := by
  induction sizes generalizing c with
  | nil => simp [chunkList]
  | cons s rest ih =>
    simp only [chunkList, List.flatten_cons, ih, List.sum_cons, List.take_add,
      List.drop_drop]

theorem chunkList_map_length (indices sizes : List Nat) (c : Nat)
    (h : c + sizes.sum ≤ indices.length) :
    (chunkList indices sizes c).map List.length = sizes := by
  induction sizes generalizing c with
  | nil => rfl
  | cons s rest ih =>
    have hrec : (chunkList indices rest (c + s)).map List.length = rest := by
      apply ih
      simp only [List.sum_cons] at h
      omega
    have hlen : ((indices.drop c).take s).length = s := by
      apply List.length_take_of_le
      rw [List.length_drop]
      simp only [List.sum_cons] at h
      omega
    simp [chunkList, hrec, hlen]

theorem mem_chunkList_sublist {indices sizes : List Nat} {c : Nat} {m : List Nat}
    (hm : m ∈ chunkList indices sizes c) : m.Sublist indices := by
  induction sizes generalizing c with
  | nil => simp [chunkList] at hm
  | cons s rest ih =>
    simp only [chunkList, List.mem_cons] at hm
    rcases hm with h | h
    · exact h ▸ (List.take_sublist _ _).trans (List.drop_sublist _ _)
    · exact ih h

theorem sum_range_map_ite (q r t : Nat) :
    ((List.range t).map (fun i => q + if i < r then 1 else 0)).sum =
      t * q + min r t := by
  induction t with
  | zero => simp
  | succ t ih =>
    rw [List.range_succ, List.map_append, List.sum_append]
    simp only [List.map_cons, List.map_nil, List.sum_cons, List.sum_nil, ih,
      Nat.succ_mul]
    by_cases hr : t < r
    · simp only [if_pos hr]
      omega
    · simp only [if_neg hr]
      omega

theorem sum_foldSizes (t n : Nat) (ht : 0 < t) : (foldSizes t n).sum = n := by
  unfold foldSizes
  rw [sum_range_map_ite]
  have h1 : n % t < t := Nat.mod_lt _ ht
  have h2 : t * (n / t) + n % t = n := Nat.div_add_mod n t
  omega

theorem length_foldSizes (t n : Nat) : (foldSizes t n).length = t := by
  simp [foldSizes]

theorem countP_mem_flatten_zero {j : Nat} {l : List (List Nat)}
    (h : l.flatten.count j = 0) :
    l.countP (fun c => decide (j ∈ c)) = 0 := by
  rw [List.countP_eq_zero]
  intro c hc hj
  rw [decide_eq_true_iff] at hj
  rw [List.count_eq_zero] at h
  exact h (List.mem_flatten.mpr ⟨c, hc, hj⟩)

/-- A value occurring exactly once in the concatenation occurs in exactly one
of the sublists. -/
theorem countP_mem_flatten_one {j : Nat} {l : List (List Nat)}
    (h : l.flatten.count j = 1) :
    l.countP (fun c => decide (j ∈ c)) = 1 := by
  induction l with
  | nil => simp at h
  | cons c rest ih =>
    rw [List.flatten_cons, List.count_append] at h
    by_cases hj : j ∈ c
    · have hc1 : 0 < List.count j c := List.count_pos_iff.mpr hj
      have hrest : rest.flatten.count j = 0 := by omega
      rw [List.countP_cons]
      simp [hj, countP_mem_flatten_zero hrest]
    · have hc0 : List.count j c = 0 := List.count_eq_zero.mpr hj
      rw [List.countP_cons]
      simp only [hj, decide_eq_true_iff, if_neg hj, Nat.add_zero]
      exact ih (by omega)

/-! ### Structure of the split result -/

theorem split_eq_ok {State : Type} (k : KFold) (np : NpRandom State) (σ : State)
    (n : Nat) (h : k.n_splits ≤ (n : Int)) :
    k.split np σ n = .ok ((k.iterTestIndices np σ n).map
      (fun mask => (trainOf n mask, testOf n mask))) := by
  unfold KFold.split
  rw [if_neg (not_lt.mpr h)]

theorem split_ok_elim {State : Type} {k : KFold} {np : NpRandom State} {σ : State}
    {n : Nat} {pairs : List (List Nat × List Nat)}
    (hok : k.split np σ n = .ok pairs) :
    pairs = (k.iterTestIndices np σ n).map
      (fun mask => (trainOf n mask, testOf n mask)) := by
  unfold KFold.split at hok
  by_cases hc : k.n_splits > (n : Int)
  · rw [if_pos hc] at hok
    exact absurd hok (by simp)
  · rw [if_neg hc] at hok
    injection hok with h
    exact h.symm

theorem mask_mem_props {State : Type} {k : KFold} {np : NpRandom State} {σ : State}
    {n : Nat} (hperm : (k.baseOrder np σ n).Perm (List.range n))
    {m : List Nat} (hm : m ∈ k.iterTestIndices np σ n) :
    m.Nodup ∧ ∀ x ∈ m, x < n := by
  unfold KFold.iterTestIndices at hm
  have hsub := mem_chunkList_sublist hm
  refine ⟨hsub.nodup (hperm.nodup_iff.mpr (List.nodup_range n)), fun x hx => ?_⟩
  exact List.mem_range.mp (hperm.mem_iff.mp (hsub.subset hx))

theorem iterTestIndices_flatten {State : Type} (k : KFold) (np : NpRandom State)
    (σ : State) (n : Nat) (hk : 0 < k.n_splits.toNat)
    (hlen : (k.baseOrder np σ n).length = n) :
    (k.iterTestIndices np σ n).flatten = k.baseOrder np σ n := by
  unfold KFold.iterTestIndices
  rw [chunkList_flatten, List.drop_zero, sum_foldSizes _ _ hk]
  generalize hb : k.baseOrder np σ n = b at hlen ⊢
  rw [← hlen, List.take_length]

theorem iterTestIndices_length {State : Type} (k : KFold) (np : NpRandom State)
    (σ : State) (n : Nat) :
    (k.iterTestIndices np σ n).length = k.n_splits.toNat := by
  unfold KFold.iterTestIndices
  rw [chunkList_length, length_foldSizes]

theorem iterTestIndices_map_length {State : Type} (k : KFold) (np : NpRandom State)
    (σ : State) (n : Nat) (hk : 0 < k.n_splits.toNat)
    (hlen : (k.baseOrder np σ n).length = n) :
    (k.iterTestIndices np σ n).map List.length = foldSizes k.n_splits.toNat n := by
  unfold KFold.iterTestIndices
  apply chunkList_map_length
  rw [Nat.zero_add, sum_foldSizes _ _ hk, hlen]

/-! ### Claim theorems -/

/-- C1: for every partitioner satisfying the constructor invariant
`n_splits ≥ 2` and every sample count `n ≥ n_splits`, with the numpy
permutation delivering a permutation of `[0, n)` (trivially so when shuffling
is disabled), `split` yields exactly `n_splits` pairs in fold order, and each
index `j < n` occurs in the test indices of exactly one pair and in the train
indices of exactly `n_splits - 1` pairs. -/
theorem C1_every_index_tested_once {State : Type} (np : NpRandom State) (σ : State)
    (k : KFold) (n : Nat) (hk : 2 ≤ k.n_splits) (hn : k.n_splits ≤ (n : Int))
    (hperm : (k.baseOrder np σ n).Perm (List.range n)) :
    ∃ pairs, k.split np σ n = .ok pairs ∧ (pairs.length : Int) = k.n_splits ∧
      ∀ j, j < n →
        pairs.countP (fun p => decide (j ∈ p.2)) = 1 ∧
        (pairs.countP (fun p => decide (j ∈ p.1)) : Int) = k.n_splits - 1 := by
  have htn : (k.n_splits.toNat : Int) = k.n_splits := Int.toNat_of_nonneg (by omega)
  have hkpos : 0 < k.n_splits.toNat := by omega
  have hlen : (k.baseOrder np σ n).length = n := by
    rw [hperm.length_eq, List.length_range]
  refine ⟨_, split_eq_ok k np σ n hn, ?_, ?_⟩
  · rw [List.length_map, iterTestIndices_length, htn]
  · intro j hj
    have hcount : (k.iterTestIndices np σ n).flatten.count j = 1 := by
      rw [iterTestIndices_flatten k np σ n hkpos hlen]
      exact List.count_eq_one_of_mem (hperm.nodup_iff.mpr (List.nodup_range n))
        (hperm.mem_iff.mpr (List.mem_range.mpr hj))
    have htestc : (k.iterTestIndices np σ n).countP
        (fun mask => decide (j ∈ mask)) = 1 := countP_mem_flatten_one hcount
    have htest : ((k.iterTestIndices np σ n).map
        (fun mask => (trainOf n mask, testOf n mask))).countP
        (fun p => decide (j ∈ p.2)) = 1 := by
      rw [List.countP_map]
      rw [List.countP_congr (q := fun mask => decide (j ∈ mask)) ?_]
      · exact htestc
      · intro m _
        simp [Function.comp, mem_testOf, hj]
    refine ⟨htest, ?_⟩
    have hsplit := List.length_eq_countP_add_countP
      (fun m : List Nat => decide (j ∈ m)) (k.iterTestIndices np σ n)
    have htrain : ((k.iterTestIndices np σ n).map
        (fun mask => (trainOf n mask, testOf n mask))).countP
        (fun p => decide (j ∈ p.1)) =
        (k.iterTestIndices np σ n).countP
          (fun m => decide ¬(decide (j ∈ m) = true)) := by
      rw [List.countP_map]
      apply List.countP_congr
      intro m _
      simp [Function.comp, mem_trainOf, hj]
    rw [htrain]
    rw [iterTestIndices_length] at hsplit
    omega

/-- C2: every pair yielded by `split` has its test indices in strictly
ascending order, its train indices in strictly ascending order, the two
sequences disjoint, and their union exactly the indices below `n`, for any
fold and any shuffle state. -/
theorem C2_pair_structure {State : Type} (np : NpRandom State) (σ : State)
    (k : KFold) (n : Nat) (pairs : List (List Nat × List Nat))
    (hok : k.split np σ n = .ok pairs) (p : List Nat × List Nat)
    (hp : p ∈ pairs) :
    p.2.Sorted (· < ·) ∧ p.1.Sorted (· < ·) ∧
      (∀ j, ¬(j ∈ p.1 ∧ j ∈ p.2)) ∧ (∀ j, (j ∈ p.1 ∨ j ∈ p.2) ↔ j < n) := by
  rw [split_ok_elim hok] at hp
  obtain ⟨m, _, hpe⟩ := List.mem_map.mp hp
  subst hpe
  refine ⟨sorted_testOf n m, sorted_trainOf n m, ?_, ?_⟩
  · rintro j ⟨h1, h2⟩
    exact (mem_trainOf.mp h1).2 (mem_testOf.mp h2).2
  · intro j
    constructor
    · rintro (h | h)
      · exact (mem_trainOf.mp h).1
      · exact (mem_testOf.mp h).1
    · intro hj
      by_cases hjm : j ∈ m
      · exact Or.inr (mem_testOf.mpr ⟨hj, hjm⟩)
      · exact Or.inl (mem_trainOf.mpr ⟨hj, hjm⟩)

/-- C3: the test-set sizes in fold order are `n / n_splits + 1` for the first
`n mod n_splits` folds and `n / n_splits` for the rest, whatever the shuffle
state, provided the numpy permutation delivers a permutation of `[0, n)`. -/
theorem C3_fold_sizes {State : Type} (np : NpRandom State) (σ : State)
    (k : KFold) (n : Nat) (hk : 2 ≤ k.n_splits) (hn : k.n_splits ≤ (n : Int))
    (hperm : (k.baseOrder np σ n).Perm (List.range n)) :
    ∃ pairs, k.split np σ n = .ok pairs ∧
      pairs.map (fun p => p.2.length) =
        (List.range k.n_splits.toNat).map
          (fun i => n / k.n_splits.toNat +
            if i < n % k.n_splits.toNat then 1 else 0) := by
  have hkpos : 0 < k.n_splits.toNat := by omega
  have hlen : (k.baseOrder np σ n).length = n := by
    rw [hperm.length_eq, List.length_range]
  refine ⟨_, split_eq_ok k np σ n hn, ?_⟩
  rw [List.map_map]
  have h1 : (k.iterTestIndices np σ n).map
      ((fun p : List Nat × List Nat => p.2.length) ∘
        (fun mask => (trainOf n mask, testOf n mask))) =
      (k.iterTestIndices np σ n).map List.length := by
    apply List.map_congr_left
    intro m hm
    have hprops := mask_mem_props hperm hm
    exact length_testOf hprops.1 hprops.2
  rw [h1, iterTestIndices_map_length k np σ n hkpos hlen]
  rfl

/-- C4: `split` fails if and only if `n_splits` exceeds the sample count, and
otherwise yields exactly `n_splits` pairs. -/
theorem C4_split_error_iff {State : Type} (np : NpRandom State) (σ : State)
    (k : KFold) (n : Nat) (hk : 2 ≤ k.n_splits) :
    ((∃ e, k.split np σ n = .error e) ↔ (n : Int) < k.n_splits) ∧
      ∀ pairs, k.split np σ n = .ok pairs → (pairs.length : Int) = k.n_splits := by
  have htn : (k.n_splits.toNat : Int) = k.n_splits := Int.toNat_of_nonneg (by omega)
  by_cases hc : (n : Int) < k.n_splits
  · have herr : k.split np σ n =
        .error "Cannot have number of splits greater than number of samples" := by
      unfold KFold.split
      rw [if_pos hc]
    refine ⟨⟨fun _ => hc, fun _ => ⟨_, herr⟩⟩, ?_⟩
    intro pairs hok
    rw [herr] at hok
    exact absurd hok (by simp)
  · refine ⟨⟨fun he => ?_, fun h => absurd h hc⟩, ?_⟩
    · obtain ⟨e, he⟩ := he
      rw [split_eq_ok k np σ n (by omega)] at he
      exact absurd he (by simp)
    · intro pairs hok
      rw [split_ok_elim hok, List.length_map, iterTestIndices_length, htn]

/-- C5 (counter-evidence): construction with `shuffle=False` and the documented
default `random_state=None` is rejected, because `isinstance(None,
numbers.Integral)` is false — contradicting the claim (and the code's own
docstring) that an absent seed with shuffling disabled succeeds. -/
theorem C5_default_seed_rejected :
    KFold.init (PyVal.int 5) (PyVal.bool false) PyVal.none =
      .error "Random state must be an integer" := rfl

/-- C6: construction fails whenever `n_splits` is not integral, `n_splits` is
below 2, `shuffle` is not a boolean, or a seed value is supplied together with
`shuffle=False`. -/
theorem C6_construction_rejects (ns sh rs : PyVal)
    (h : ns.isIntegral = false ∨ ns.toInt < 2 ∨ sh.isBool = false ∨
      (sh = PyVal.bool false ∧ rs ≠ PyVal.none)) :
    ∃ e, KFold.init ns sh rs = .error e := by
  unfold KFold.init
  split_ifs with h1 h2 h3 h4 h5
  · exact ⟨_, rfl⟩
  · exact ⟨_, rfl⟩
  · exact ⟨_, rfl⟩
  · exact ⟨_, rfl⟩
  · exact ⟨_, rfl⟩
  · exfalso
    rcases h with hna | hlt | hnb | ⟨hsf, hrs⟩
    · exact h1 (by simp [hna])
    · exact h2 (by omega)
    · exact h3 (by simp [hnb])
    · subst hsf
      exact h5 (by simp [PyVal.asBool, hrs])

/-- C7: the two concrete scenarios with shuffling disabled: `n=10, k=5` gives
test chunks `[0,1], [2,3], [4,5], [6,7], [8,9]` with complementary 8-element
train sequences, and `n=7, k=3` gives test chunks `[0,1,2], [3,4], [5,6]`. -/
theorem C7_concrete_scenarios :
    KFold.split ⟨5, false, PyVal.none⟩ npUnit () 10 =
      .ok [([2, 3, 4, 5, 6, 7, 8, 9], [0, 1]),
           ([0, 1, 4, 5, 6, 7, 8, 9], [2, 3]),
           ([0, 1, 2, 3, 6, 7, 8, 9], [4, 5]),
           ([0, 1, 2, 3, 4, 5, 8, 9], [6, 7]),
           ([0, 1, 2, 3, 4, 5, 6, 7], [8, 9])] ∧
    KFold.split ⟨3, false, PyVal.none⟩ npUnit () 7 =
      .ok [([3, 4, 5, 6], [0, 1, 2]),
           ([0, 1, 2, 5, 6], [3, 4]),
           ([0, 1, 2, 3, 4], [5, 6])] := ⟨rfl, rfl⟩

/-- C8: with shuffling enabled and an integer seed configured, the result of
`split` does not depend on the incoming global generator state, because
`np.random.seed(self.random_state)` overwrites it; hence two invocations with
the same `n` and `n_splits` yield identical pair sequences. -/
theorem C8_pinned_seed_reproducible {State : Type} (np : NpRandom State)
    (σ₁ σ₂ : State) (k : KFold) (n : Nat) (s : Int) (hsh : k.shuffle = true)
    (hs : k.random_state = PyVal.int s) :
    k.split np σ₁ n = k.split np σ₂ n := rfl

/-- C9: at the boundary `n = n_splits`, `split` succeeds (only strictly larger
fold counts are rejected) and yields exactly `n_splits` pairs whose test
sequences each hold exactly one index. -/
theorem C9_fold_count_eq_n {State : Type} (np : NpRandom State) (σ : State)
    (k : KFold) (hk : 2 ≤ k.n_splits)
    (hperm : (k.baseOrder np σ k.n_splits.toNat).Perm
      (List.range k.n_splits.toNat)) :
    ∃ pairs, k.split np σ k.n_splits.toNat = .ok pairs ∧
      (pairs.length : Int) = k.n_splits ∧ ∀ p ∈ pairs, p.2.length = 1 := by
  have htn : (k.n_splits.toNat : Int) = k.n_splits := Int.toNat_of_nonneg (by omega)
  have hkpos : 0 < k.n_splits.toNat := by omega
  have hn : k.n_splits ≤ ((k.n_splits.toNat : Nat) : Int) := by rw [htn]
  have hlen : (k.baseOrder np σ k.n_splits.toNat).length = k.n_splits.toNat := by
    rw [hperm.length_eq, List.length_range]
  refine ⟨_, split_eq_ok k np σ _ hn, ?_, ?_⟩
  · rw [List.length_map, iterTestIndices_length, htn]
  · intro p hp
    obtain ⟨m, hm, hpe⟩ := List.mem_map.mp hp
    subst hpe
    have hprops := mask_mem_props hperm hm
    have hml : m.length ∈ foldSizes k.n_splits.toNat k.n_splits.toNat := by
      rw [← iterTestIndices_map_length k np σ _ hkpos hlen]
      exact List.mem_map_of_mem _ hm
    have hones : ∀ x ∈ foldSizes k.n_splits.toNat k.n_splits.toNat, x = 1 := by
      intro x hx
      simp only [foldSizes, List.mem_map, List.mem_range] at hx
      obtain ⟨i, _, hxe⟩ := hx
      rw [Nat.div_self hkpos, Nat.mod_self] at hxe
      simp at hxe
      omega
    show (testOf k.n_splits.toNat m).length = 1
    rw [length_testOf hprops.1 hprops.2]
    exact hones _ hml

/-- C10: a constructed partitioner stores exactly the validated field values;
`get_n_splits` returns the stored `n_splits` and, like `split`, is a pure
function of the instance, so no invocation alters the stored fields. -/
theorem C10_get_n_splits_stored (ns sh rs : PyVal) (k : KFold)
    (h : KFold.init ns sh rs = .ok k) :
    k.get_n_splits = k.n_splits ∧ k.get_n_splits = ns.toInt ∧
      k.shuffle = sh.asBool ∧ k.random_state = rs := by
  unfold KFold.init at h
  split_ifs at h <;> cases h
  exact ⟨rfl, rfl, rfl, rfl⟩

/-! ### Witnesses -/

/-- Witness for C1 at `n_splits = 2`, `n = 4`, shuffle disabled. -/
theorem C1_every_index_tested_once_witness :
    ∃ pairs, KFold.split ⟨2, false, PyVal.none⟩ npUnit () 4 = .ok pairs ∧
      (pairs.length : Int) = 2 ∧
      ∀ j, j < 4 →
        pairs.countP (fun p => decide (j ∈ p.2)) = 1 ∧
        (pairs.countP (fun p => decide (j ∈ p.1)) : Int) = 2 - 1 :=
  C1_every_index_tested_once npUnit () ⟨2, false, PyVal.none⟩ 4 (by decide)
    (by decide) (List.Perm.refl _)

/-- Witness for C2 at `n_splits = 2`, `n = 2`, first pair. -/
theorem C2_pair_structure_witness :
    ([0] : List Nat).Sorted (· < ·) ∧ ([1] : List Nat).Sorted (· < ·) ∧
      (∀ j, ¬(j ∈ ([1] : List Nat) ∧ j ∈ ([0] : List Nat))) ∧
      (∀ j, (j ∈ ([1] : List Nat) ∨ j ∈ ([0] : List Nat)) ↔ j < 2) :=
  C2_pair_structure npUnit () ⟨2, false, PyVal.none⟩ 2
    [([1], [0]), ([0], [1])] rfl ([1], [0]) (by decide)

/-- Witness for C3 at `n_splits = 2`, `n = 5`, shuffle disabled. -/
theorem C3_fold_sizes_witness :
    ∃ pairs, KFold.split ⟨2, false, PyVal.none⟩ npUnit () 5 = .ok pairs ∧
      pairs.map (fun p => p.2.length) =
        (List.range 2).map (fun i => 5 / 2 + if i < 5 % 2 then 1 else 0) :=
  C3_fold_sizes npUnit () ⟨2, false, PyVal.none⟩ 5 (by decide) (by decide)
    (List.Perm.refl _)

/-- Witness for C4 at `n_splits = 2`, `n = 1` (the failing side of the iff). -/
theorem C4_split_error_iff_witness :
    ((∃ e, KFold.split ⟨2, false, PyVal.none⟩ npUnit () 1 = .error e) ↔
        ((1 : Nat) : Int) < 2) ∧
      ∀ pairs, KFold.split ⟨2, false, PyVal.none⟩ npUnit () 1 = .ok pairs →
        (pairs.length : Int) = 2 :=
  C4_split_error_iff npUnit () ⟨2, false, PyVal.none⟩ 1 (by decide)

/-- Witness for C6 with the non-integral fold count `"5"`. -/
theorem C6_construction_rejects_witness :
    ∃ e, KFold.init (PyVal.str "5") (PyVal.bool true) (PyVal.int 42) = .error e :=
  C6_construction_rejects (PyVal.str "5") (PyVal.bool true) (PyVal.int 42)
    (Or.inl rfl)

/-- Witness for C8: two runs from distinct global generator states. -/
theorem C8_pinned_seed_reproducible_witness :
    KFold.split ⟨2, true, PyVal.int 7⟩ npBoolState true 6 =
      KFold.split ⟨2, true, PyVal.int 7⟩ npBoolState false 6 :=
  C8_pinned_seed_reproducible npBoolState true false ⟨2, true, PyVal.int 7⟩ 6 7
    rfl rfl

/-- Witness for C9 at `n_splits = 2`, `n = 2`. -/
theorem C9_fold_count_eq_n_witness :
    ∃ pairs, KFold.split ⟨2, false, PyVal.none⟩ npUnit () 2 = .ok pairs ∧
      (pairs.length : Int) = 2 ∧ ∀ p ∈ pairs, p.2.length = 1 :=
  C9_fold_count_eq_n npUnit () ⟨2, false, PyVal.none⟩ (by decide)
    (List.Perm.refl _)

/-- Witness for C10 on the instance built from `(5, True, 42)`. -/
theorem C10_get_n_splits_stored_witness :
    (KFold.mk 5 true (PyVal.int 42)).get_n_splits =
        (KFold.mk 5 true (PyVal.int 42)).n_splits ∧
      (KFold.mk 5 true (PyVal.int 42)).get_n_splits = (PyVal.int 5).toInt ∧
      (KFold.mk 5 true (PyVal.int 42)).shuffle = (PyVal.bool true).asBool ∧
      (KFold.mk 5 true (PyVal.int 42)).random_state = PyVal.int 42 :=
  C10_get_n_splits_stored (PyVal.int 5) (PyVal.bool true) (PyVal.int 42)
    ⟨5, true, PyVal.int 42⟩ rfl
